import Mathlib

/-!
Shallow embedding of the WBS-assembly pipeline (task models, category
detector, task merger, task-text parser, duplicate detector, master-data
provisioner, versioned storage coordinator and WBS orchestrator) together
with theorems settling the specification claims about it.
-/

set_option maxRecDepth 4096

namespace Wbs

/-- Model of `src/src/models/enums.py` : `CategoryEnum`, seven phases in declaration
order. -/
inductive CategoryEnum where
  | PREPARATION
  | REQUIREMENTS
  | BASIC_DESIGN
  | IMPLEMENTATION
  | TESTING
  | RELEASE
  | DELIVERY
deriving DecidableEq, Repr

/-- String value of each `CategoryEnum` member (the Japanese phase label). -/
def CategoryEnum.value : CategoryEnum → String
  | .PREPARATION => "事前準備"
  | .REQUIREMENTS => "要件定義"
  | .BASIC_DESIGN => "基本設計"
  | .IMPLEMENTATION => "実装"
  | .TESTING => "テスト"
  | .RELEASE => "リリース"
  | .DELIVERY => "納品"

/-- Members of `CategoryEnum` in declaration order (Python iterates an
`Enum` class in declaration order). -/
def categoryMembers : List CategoryEnum :=
  [.PREPARATION, .REQUIREMENTS, .BASIC_DESIGN, .IMPLEMENTATION,
   .TESTING, .RELEASE, .DELIVERY]

/-- Model of `src/src/models/enums.py` : `IssueTypeEnum` values. -/
def issueTypeTask : String := "課題"

def issueTypeRisk : String := "リスク"

/-- Model of `src/src/models/task.py` : `DEFAULT_CATEGORY = CategoryEnum.REQUIREMENTS`. -/
def DEFAULT_CATEGORY : CategoryEnum := CategoryEnum.REQUIREMENTS

/-- Model of `src/src/models/task.py` : `Task` pydantic model. `title` is required
(`min_length=1`); every other field is optional. -/
structure Task where
  title : String
  description : Option String := none
  category : Option CategoryEnum := none
  priority : Option String := none
  assignee : Option String := none
  input : Option String := none
  goal_output : Option String := none
deriving DecidableEq, Repr

/-! ### Substring matching (model of Python `in` on `str`) -/

/-- Whether `needle` is an initial segment of `hay`. -/
def leadsChars : List Char → List Char → Bool
  | [], _ => true
  | _ :: _, [] => false
  | a :: as, b :: bs => a = b && leadsChars as bs

/-- Whether `needle` occurs as a contiguous run inside `hay`
(Python `needle in hay` for strings). -/
def hasSubChars (needle : List Char) : List Char → Bool
  | [] => leadsChars needle []
  | c :: t => leadsChars needle (c :: t) || hasSubChars needle t

/-- Python `needle in hay` on strings. -/
def strContainsSub (hay needle : String) : Bool :=
  hasSubChars needle.data hay.data

/-- Python `str.lower()` (ASCII case mapping; the identity on the Japanese
keyword text this repository uses). Written over the character list so that
it evaluates inside the kernel. -/
def str_lower (s : String) : String :=
  String.mk (s.data.map Char.toLower)

/-- Python `str.strip()`: drop leading and trailing whitespace. -/
def str_strip (s : String) : String :=
  String.mk
    (((s.data.dropWhile Char.isWhitespace).reverse.dropWhile
      Char.isWhitespace).reverse)

/-- Python `str.split(sep)` for a one-character separator (the only kinds
the converter uses: `"\n"` and `"|"`). -/
def splitCharAux (sep : Char) : List Char → List (List Char)
  | [] => [[]]
  | c :: rest =>
    match splitCharAux sep rest with
    | cur :: tail => if c = sep then [] :: cur :: tail else (c :: cur) :: tail
    | [] => [[c]]

/-- Python `str.split(sep)` on strings. -/
def split_char (sep : Char) (s : String) : List String :=
  (splitCharAux sep s.data).map String.mk

/-! ### Category detector (`src/src/services/category_detector.py`) -/

/-- Model of `CategoryDetector.category_keywords`, exactly as listed in the source
(including the duplicated `"実装"` entry under IMPLEMENTATION). -/
def category_keywords : CategoryEnum → List String
  | .PREPARATION =>
      ["事前準備", "準備", "キックオフ", "環境構築", "セットアップ",
       "初期設定", "プロジェクト立ち上げ", "体制", "計画"]
  | .REQUIREMENTS =>
      ["要件定義", "要件", "ヒアリング", "ニーズ", "仕様", "要求",
       "機能定義", "業務分析", "課題整理", "スコープ"]
  | .BASIC_DESIGN =>
      ["基本設計", "設計", "アーキテクチャ", "構成", "システム設計",
       "データベース設計", "API設計", "画面設計", "インターフェース",
       "方式設計"]
  | .IMPLEMENTATION =>
      ["実装", "開発", "コーディング", "プログラミング", "実装", "構築",
       "作成", "製造", "ビルド", "API実装", "機能実装"]
  | .TESTING =>
      ["テスト", "試験", "デバッグ", "検証", "バグ修正", "品質保証",
       "QA", "UT", "単体テスト", "結合テスト", "E2Eテスト", "動作確認"]
  | .RELEASE =>
      ["リリース", "デプロイ", "公開", "本番", "ローンチ", "配置",
       "リリース準備", "カットオーバー", "移行"]
  | .DELIVERY =>
      ["納品", "引き渡し", "完了報告", "ドキュメント作成", "成果物",
       "納入", "報告書", "マニュアル", "引継ぎ", "レビュー"]

/-- Model of `CategoryDetector.detect_category`, construction of `search_text`:
lower-cased title, plus a space and the lower-cased description when the
description is present and non-empty (Python truthiness of `task.description`). -/
def search_text (task : Task) : String :=
  match task.description with
  | some d => if d ≠ "" then str_lower task.title ++ " " ++ str_lower d
              else str_lower task.title
  | none => str_lower task.title

/-- Model of `CategoryDetector._match_keywords`: add `len(keyword)` for every keyword
of the category whose lower-cased form occurs in `text`. -/
def match_keywords (text : String) (category : CategoryEnum) : Nat :=
  (category_keywords category).foldl
    (fun score keyword =>
      if strContainsSub text (str_lower keyword) then score + keyword.length
      else score)
    0

/-- Python `max(scores, key=scores.get)` over the keyword dictionary:
scan in insertion (declaration) order, replacing the current best only on a
strictly greater score, starting from the first key. -/
def pickBestCategory (s : CategoryEnum → Nat) : CategoryEnum :=
  [CategoryEnum.REQUIREMENTS, CategoryEnum.BASIC_DESIGN,
   CategoryEnum.IMPLEMENTATION, CategoryEnum.TESTING,
   CategoryEnum.RELEASE, CategoryEnum.DELIVERY].foldl
    (fun best c => if s best < s c then c else best)
    CategoryEnum.PREPARATION

/-- Model of `CategoryDetector.detect_category`: best-scoring category if its score is
positive, else `DEFAULT_CATEGORY`. -/
def detect_category (task : Task) : CategoryEnum :=
  let text := search_text task
  let best := pickBestCategory (fun c => match_keywords text c)
  if 0 < match_keywords text best then best else DEFAULT_CATEGORY

/-! ### Task merger (`src/src/services/task_merger.py`) -/

/-- Model of `task_merger.CATEGORY_ORDER`. -/
def CATEGORY_ORDER : List CategoryEnum :=
  [.PREPARATION, .REQUIREMENTS, .BASIC_DESIGN, .IMPLEMENTATION,
   .TESTING, .RELEASE, .DELIVERY]

/-- Model of `TaskMerger.get_category_order_index`: position in `CATEGORY_ORDER`, or
`len(CATEGORY_ORDER)` for anything not in the map (in particular a task
without a category). -/
def get_category_order_index : Option CategoryEnum → Nat
  | some .PREPARATION => 0
  | some .REQUIREMENTS => 1
  | some .BASIC_DESIGN => 2
  | some .IMPLEMENTATION => 3
  | some .TESTING => 4
  | some .RELEASE => 5
  | some .DELIVERY => 6
  | none => 7

/-- Single step of `TaskMerger._categorize_new_tasks`: auto-detect a category
only for tasks whose `category` is `None`; `model_copy` yields a fresh task. -/
def categorize_one (task : Task) : Task :=
  match task.category with
  | none => { task with category := some (detect_category task) }
  | some _ => task

/-- Model of `TaskMerger._categorize_new_tasks`. -/
def categorize_new_tasks (new_tasks : List Task) : List Task :=
  new_tasks.map categorize_one

/-- Model of `TaskMerger._group_tasks_by_category` as a bucket-lookup function: the
Python dict maps each (possibly `None`) category to its tasks in first-seen
order; looking a key up yields the input tasks having that category, in
input order. -/
def group_tasks_by_category (tasks : List Task) (c : Option CategoryEnum) :
    List Task :=
  tasks.filter (fun t => t.category = c)

/-- Model of `TaskMerger.merge_tasks`: categorize new tasks, group both lists, then
walk `CATEGORY_ORDER` appending the template bucket and then the new-task
bucket of each category (a missing bucket contributes nothing, which is the
same as appending the empty list). -/
def merge_tasks (template_tasks new_tasks : List Task) : List Task :=
  let categorized_new := categorize_new_tasks new_tasks
  CATEGORY_ORDER.foldl
    (fun merged c =>
      merged ++ group_tasks_by_category template_tasks (some c)
             ++ group_tasks_by_category categorized_new (some c))
    []

/-- Model of `TaskMerger.sort_tasks_by_category` (stable sort by order index; Python
`sorted` is stable). -/
def sort_tasks_by_category (tasks : List Task) : List Task :=
  tasks.mergeSort (fun a b =>
    get_category_order_index a.category ≤ get_category_order_index b.category)

/-! ### Task-text converter (`src/src/processors/converter.py`) -/

/-- Partially built task dictionary accumulated by
`Converter._parse_task_line` (the `current_task` dict of the source). -/
structure TaskDict where
  title : String
  priority : Option String := none
  assignee : Option String := none
  category : Option CategoryEnum := none
deriving DecidableEq, Repr

/-- Matching the regex `^[-*]\s+(.+)$` against an already-stripped line:
first char `-` or `*`, at least one whitespace char, then a non-empty rest;
the group is the rest after the maximal whitespace run. -/
def bullet_content (stripped : String) : Option String :=
  match stripped.data with
  | [] => none
  | c :: rest =>
    if c = '-' ∨ c = '*' then
      let ws := rest.takeWhile Char.isWhitespace
      let body := rest.dropWhile Char.isWhitespace
      if ws ≠ [] ∧ body ≠ [] then some (String.mk body) else none
    else none

/-- Model of `Converter._parse_category`: exact match against the enum values in
declaration order, else the default category, silently. -/
def parse_category (categoryText : String) : CategoryEnum :=
  match categoryMembers.find? (fun c => c.value = categoryText) with
  | some c => c
  | none => DEFAULT_CATEGORY

/-- Matching the regex `(.+?):\s*(.+)` at the start of an already-stripped
segment: the lazy group stops at the first `:` that has a non-empty key
before it and a non-empty remainder after it. `seen` holds the key
characters read so far, in reverse. -/
def kvScan (seen : List Char) : List Char → Option (List Char × List Char)
  | [] => none
  | c :: rest =>
    if c = ':' ∧ seen ≠ [] ∧ rest ≠ [] then some (seen.reverse, rest)
    else kvScan (c :: seen) rest

/-- Key/value split used by `Converter._parse_task_line`. -/
def kvSplit (s : String) : Option (String × String) :=
  match kvScan [] s.data with
  | some (k, v) => some (String.mk k, String.mk v)
  | none => none

/-- Model of `Converter._parse_task_line`: the first `|`-segment (trimmed) is the
title; later segments are parsed as `key: value` pairs that may set
`priority`, `assignee` or `category` (later segments overwrite earlier
ones, as Python dict assignment does); unrecognized keys are ignored. -/
def parse_task_line (taskText : String) : TaskDict :=
  let parts := split_char '|' taskText
  let base : TaskDict := { title := str_strip (parts.headD "") }
  (parts.drop 1).foldl
    (fun acc part =>
      match kvSplit (str_strip part) with
      | none => acc
      | some (k, v) =>
        let key := str_lower (str_strip k)
        let value := str_strip v
        if key = "優先度" ∨ key = "priority" then
          { acc with priority := some value }
        else if key = "担当" ∨ key = "担当者" ∨ key = "assignee" then
          { acc with assignee := some value }
        else if key = "カテゴリ" ∨ key = "category" then
          { acc with category := some (parse_category value) }
        else acc)
    base

/-- Model of `Converter._create_task_from_dict` plus the pydantic `min_length=1`
validation on `title`: an empty title raises, anything else builds a task;
the accumulated description lines are joined with newlines, and an empty
accumulation leaves `description` unset. -/
def create_task_from_dict (d : TaskDict) (descLines : List String) :
    Except String Task :=
  if d.title = "" then .error "validation error: title must be non-empty"
  else .ok
    { title := d.title
      description :=
        if descLines.isEmpty then none
        else some (String.intercalate "\n" descLines)
      category := d.category
      priority := d.priority
      assignee := d.assignee }

/-- The line loop of `Converter.parse_tasks_from_text`. State: tasks
committed so far, and the currently open task with its accumulated
description lines. A bullet line commits the open task and opens a new one;
a non-blank, non-bullet line extends the open task's description; other
lines are ignored. -/
def parse_loop (acc : List Task)
    (current : Option (TaskDict × List String)) :
    List String → Except String (List Task)
  | [] =>
    match current with
    | none => .ok acc
    | some (d, ds) => do
      let t ← create_task_from_dict d ds
      .ok (acc ++ [t])
  | line :: rest =>
    let stripped := str_strip line
    match bullet_content stripped with
    | some content =>
      match current with
      | none => parse_loop acc (some (parse_task_line content, [])) rest
      | some (d, ds) => do
        let t ← create_task_from_dict d ds
        parse_loop (acc ++ [t]) (some (parse_task_line content, [])) rest
    | none =>
      match current with
      | some (d, ds) =>
        if stripped ≠ "" then parse_loop acc (some (d, ds ++ [stripped])) rest
        else parse_loop acc (some (d, ds)) rest
      | none => parse_loop acc none rest

/-- Model of `Converter.parse_tasks_from_text`: split on newlines and run the loop;
any failure (in the source, the pydantic validation error wrapped into a
`ValueError`) aborts the whole parse with no partial list. -/
def parse_tasks_from_text (text : String) : Except String (List Task) :=
  parse_loop [] none (split_char '\n' text)

/-- The stripped, non-blank, non-bullet lines at the head of `lines` — the
description lines the parser attributes to the bullet just before them. -/
def collect_desc (lines : List String) : List String :=
  ((lines.takeWhile
      (fun l => (bullet_content (str_strip l)).isNone)).map str_strip).filter
    (fun x => x ≠ "")

/-- Declarative block decomposition of the converter input (fuelled so that
it evaluates in the kernel): one block per bullet line, in input order,
pairing the bullet's content with the non-blank non-bullet lines that
follow it. -/
def spec_blocks_fuel : Nat → List String → List (String × List String)
  | 0, _ => []
  | _, [] => []
  | fuel + 1, l :: rest =>
    match bullet_content (str_strip l) with
    | none => spec_blocks_fuel fuel rest
    | some content =>
      (content, collect_desc rest) ::
        spec_blocks_fuel fuel
          (rest.dropWhile (fun x => (bullet_content (str_strip x)).isNone))

/-- Block decomposition of a line list. -/
def spec_blocks (lines : List String) : List (String × List String) :=
  spec_blocks_fuel lines.length lines

/-- Build the task of each block, failing on the first empty title exactly
as the parser's task construction does. -/
def tasks_of_blocks : List (String × List String) → Except String (List Task)
  | [] => .ok []
  | b :: rest =>
    match create_task_from_dict (parse_task_line b.1) b.2 with
    | .error e => .error e
    | .ok t =>
      match tasks_of_blocks rest with
      | .error e => .error e
      | .ok ts => .ok (t :: ts)

/-! ### Duplicate detector (`WBSService._check_duplicates`) -/

/-- The fields of `integrations/backlog/models.py : BacklogTask` that the
duplicate check reads (`summary` is the issue title). -/
structure BacklogIssue where
  summary : String
deriving DecidableEq, Repr

/-- Whether a candidate task's lower-cased title is in the lower-cased set
of existing issue summaries. -/
def isDuplicateTitle (existingTitles : List String) (task : Task) : Bool :=
  existingTitles.contains (str_lower task.title)

/-- The partition loop of `WBSService._check_duplicates`. -/
def dup_loop (existingTitles : List String)
    (toRegister duplicates : List Task) : List Task → List Task × List Task
  | [] => (toRegister, duplicates)
  | task :: rest =>
    if isDuplicateTitle existingTitles task then
      dup_loop existingTitles toRegister (duplicates ++ [task]) rest
    else
      dup_loop existingTitles (toRegister ++ [task]) duplicates rest

/-- Model of `WBSService._check_duplicates`: the fetch of existing tasks is an
external call modelled by its outcome; on failure the error is swallowed
and every candidate is kept for registration. -/
def check_duplicates (fetched : Except String (List BacklogIssue))
    (tasks : List Task) : List Task × List Task :=
  match fetched with
  | .error _ => (tasks, [])
  | .ok existing =>
    let existingTitles := existing.map (fun i => str_lower i.summary)
    dup_loop existingTitles [] [] tasks

/-! ### Master-data service (`src/src/services/master_service.py`) -/

/-- Model of `master_service.REQUIRED_ISSUE_TYPES`. -/
def REQUIRED_ISSUE_TYPES : List String := [issueTypeTask, issueTypeRisk]

/-- Model of `master_service.REQUIRED_CATEGORIES` (the seven enum values). -/
def REQUIRED_CATEGORIES : List String :=
  ["事前準備", "要件定義", "基本設計", "実装", "テスト", "リリース", "納品"]

/-- Model of `integrations/backlog/models.py : CustomFieldInput` (the fields the
provisioner sets). -/
structure CustomFieldInput where
  name : String
  type_id : Nat
  description : Option String := none
  required : Bool := false
deriving DecidableEq, Repr

/-- Model of `master_service.REQUIRED_CUSTOM_FIELDS`. -/
def REQUIRED_CUSTOM_FIELDS : List CustomFieldInput :=
  [{ name := "インプット", type_id := 1,
     description := some "タスクのインプット（前提条件、入力データなど）" },
   { name := "ゴール/アウトプット", type_id := 2,
     description := some "タスクのゴールとアウトプット（成果物、完了条件など）" }]

/-- Behaviour of the Backlog client for one `setup_master_data` run: each
getter is the outcome of one external fetch, each creator the outcome of
creating a given item. -/
structure MasterClient where
  getIssueTypes : Except String (List String)
  createIssueType : String → Except String Unit
  getCategories : Except String (List String)
  createCategory : String → Except String Unit
  getCustomFields : Except String (List String)
  createCustomField : CustomFieldInput → Except String Unit

/-- The create-missing loop shared by the three `_ensure_*` phases: walk the
required list in order, skip items whose name already exists, create the
rest one at a time; a failing create re-raises and loses the partial list
(in the source the local list is discarded when the exception propagates). -/
def ensure_loop {α} (nameOf : α → String) (create : α → Except String Unit)
    (existingNames : List String) : List α → Except String (List String)
  | [] => .ok []
  | item :: rest =>
    if existingNames.contains (nameOf item) then
      ensure_loop nameOf create existingNames rest
    else do
      let _ ← create item
      let created ← ensure_loop nameOf create existingNames rest
      .ok (nameOf item :: created)

/-- Model of `MasterService._ensure_issue_types`. -/
def ensure_issue_types (client : MasterClient) : Except String (List String) := do
  let existing ← client.getIssueTypes
  ensure_loop id client.createIssueType existing REQUIRED_ISSUE_TYPES

/-- Model of `MasterService._ensure_categories`. -/
def ensure_categories (client : MasterClient) : Except String (List String) := do
  let existing ← client.getCategories
  ensure_loop id client.createCategory existing REQUIRED_CATEGORIES

/-- Model of `MasterService._ensure_custom_fields`. -/
def ensure_custom_fields (client : MasterClient) :
    Except String (List String) := do
  let existing ← client.getCustomFields
  ensure_loop (fun f => f.name) client.createCustomField existing
    REQUIRED_CUSTOM_FIELDS

/-- Model of `master_service.MasterDataResult`. -/
structure MasterDataResult where
  created_issue_types : List String := []
  created_categories : List String := []
  created_custom_fields : List String := []
  errors : List String := []
deriving DecidableEq, Repr

/-- Model of `MasterDataResult.success`: true when there are no errors. -/
def MasterDataResult.success (r : MasterDataResult) : Bool :=
  r.errors.length = 0

/-- Model of `MasterDataResult.total_created`. -/
def MasterDataResult.total_created (r : MasterDataResult) : Nat :=
  r.created_issue_types.length + r.created_categories.length
    + r.created_custom_fields.length

/-- Model of `MasterService.setup_master_data`: run the three phases sequentially,
catching each phase's exception into a phase-prefixed error message; a
failed phase leaves its created-list empty and the later phases still run. -/
def setup_master_data (client : MasterClient) : MasterDataResult :=
  let r0 : MasterDataResult := {}
  let r1 :=
    match ensure_issue_types client with
    | .ok created => { r0 with created_issue_types := created }
    | .error e =>
        { r0 with errors := r0.errors ++ ["Failed to setup issue types: " ++ e] }
  let r2 :=
    match ensure_categories client with
    | .ok created => { r1 with created_categories := created }
    | .error e =>
        { r1 with errors := r1.errors ++ ["Failed to setup categories: " ++ e] }
  match ensure_custom_fields client with
  | .ok created => { r2 with created_custom_fields := created }
  | .error e =>
      { r2 with errors := r2.errors ++ ["Failed to setup custom fields: " ++ e] }

/-! ### Versioned storage (`src/src/storage/__init__.py`,
`src/src/storage/firestore_client.py`) -/

/-- Model of `models/metadata.py : FileMetadata`. Timestamps are abstracted to a
number; URLs are kept as strings. -/
structure FileMetadata where
  id : Option String := none
  source_file_name : String
  parent_url : String
  file_url : String
  file_name : String
  updated_at : Nat
  version : Nat
  format : String
  gcs_path : String
deriving DecidableEq, Repr

/-- The metadata store: the documents saved so far, in insertion order. -/
abbrev FirestoreState := List FileMetadata

/-- One comparison step of the `order_by version descending, limit 1`
query: keep the record with the larger version, the earlier one on ties. -/
def laterVersion (best : Option FileMetadata) (m : FileMetadata) :
    Option FileMetadata :=
  match best with
  | none => some m
  | some b => if b.version < m.version then some m else some b

/-- Model of `FirestoreClient.get_latest_metadata`: among the documents whose
`file_url` matches, the one with the highest version (none if there is no
match). -/
def get_latest_metadata (fileUrl : String) (st : FirestoreState) :
    Option FileMetadata :=
  (st.filter (fun m => m.file_url = fileUrl)).foldl laterVersion none

/-- Model of `FirestoreClient.save_metadata`: store the record and return the
document id the store assigned (modelled as the running document count). -/
def save_metadata (st : FirestoreState) (m : FileMetadata) :
    String × FirestoreState :=
  let docId := "doc" ++ toString (List.length st)
  (docId, st ++ [{ m with id := some docId }])

/-- Model of `StorageManager.save_data`: read the latest metadata for `file_url`,
assign version 1 (no previous record) or `latest.version + 1`, derive the
GCS path, upload the content first, then persist the metadata record and
return it with its assigned id. `upload` and `pathOf` model the GCS client
and `config.get_gcs_path`; a failed upload aborts the save. -/
def save_data {α} (upload : String → α → Except String String)
    (pathOf : String → Nat → String) (now : Nat) (st : FirestoreState)
    (parentUrl fileUrl fileName : String) (data : α) (format : String) :
    Except String (FileMetadata × FirestoreState) :=
  let latest := get_latest_metadata fileUrl st
  let newVersion :=
    match latest with
    | some m => m.version + 1
    | none => 1
  let gcsPath := pathOf fileUrl newVersion
  let metadata : FileMetadata :=
    { source_file_name := fileName, parent_url := parentUrl,
      file_url := fileUrl, file_name := fileName, updated_at := now,
      version := newVersion, format := format, gcs_path := gcsPath }
  match upload gcsPath data with
  | .error e => .error e
  | .ok _ =>
    let (docId, st') := save_metadata st metadata
    .ok ({ metadata with id := some docId }, st')

/-- N sequential `save_data` calls for one `file_url`, collecting the
assigned version numbers. -/
def save_seq {α} (upload : String → α → Except String String)
    (pathOf : String → Nat → String) (now : Nat)
    (parentUrl fileUrl fileName : String) (format : String) :
    List α → FirestoreState → Except String (List Nat × FirestoreState)
  | [], st => .ok ([], st)
  | data :: rest, st =>
    match save_data upload pathOf now st parentUrl fileUrl fileName
        data format with
    | .error e => .error e
    | .ok (m, st') =>
      match save_seq upload pathOf now parentUrl fileUrl fileName
          format rest st' with
      | .error e => .error e
      | .ok (vs, st'') => .ok (m.version :: vs, st'')

/-- The metadata record `save_data` appends when it assigns version `v`
against store contents `st`. -/
def saved_record (pathOf : String → Nat → String) (now : Nat)
    (parentUrl url fileName format : String) (st : FirestoreState) (v : Nat) :
    FileMetadata :=
  { id := some ("doc" ++ toString (List.length st)),
    source_file_name := fileName, parent_url := parentUrl, file_url := url,
    file_name := fileName, updated_at := now, version := v, format := format,
    gcs_path := pathOf url v }

/-! ### WBS orchestrator (`src/src/services/wbs_service.py`) -/

/-- Model of `models/enums.py : ServiceType`. -/
inductive ServiceType where
  | BACKLOG
  | NOTION
deriving DecidableEq, Repr

/-- Shape of the raw template document fetched over MCP, as far as
`_process_template_data` inspects it: a Notion page with blocks, a Notion
database with rows, or anything else. -/
inductive TemplateData where
  | page (blocks : List String)
  | database (rows : List String)
  | other
deriving DecidableEq, Repr

/-- Model of `WBSService._extract_text_from_blocks` (placeholder in the source:
always returns the empty string). -/
def extract_text_from_blocks (_blocks : List String) : String := ""

/-- Model of `WBSService._parse_backlog_data` (placeholder in the source: always
returns the empty task list). -/
def parse_backlog_data (_data : TemplateData) : List Task := []

/-- Model of `WBSService._parse_notion_data`: a page is flattened to text and fed to
the task-text converter; a database row loop is a placeholder producing
nothing; anything else yields no tasks. -/
def parse_notion_data (data : TemplateData) : Except String (List Task) :=
  match data with
  | .page blocks => parse_tasks_from_text (extract_text_from_blocks blocks)
  | .database _ => .ok []
  | .other => .ok []

/-- Model of `WBSService._process_template_data`: dispatch on the service type. -/
def process_template_data (serviceType : ServiceType) (data : TemplateData) :
    Except String (List Task) :=
  match serviceType with
  | .BACKLOG => .ok (parse_backlog_data data)
  | .NOTION => parse_notion_data data

/-- Model of `wbs_service.WBSResult` (initializer defaults). -/
structure WBSResult where
  success : Bool := false
  registered_tasks : List Task := []
  skipped_tasks : List Task := []
  metadata_id : Option String := none
  error_message : Option String := none
  master_data_created : Nat := 0
deriving DecidableEq, Repr

/-- One run's view of every external collaborator `create_wbs` touches:
the Backlog master-data client, the URL resolution outcome, the template
fetch outcome, the metadata store contents, the object-store behaviour, the
existing-task listing, and the task-creation outcome. -/
structure WbsEnv where
  masterClient : MasterClient
  parseServiceType : Except String ServiceType
  fetchData : Except String TemplateData
  firestore : FirestoreState
  gcsUpload : String → TemplateData → Except String String
  gcsPathOf : String → Nat → String
  getTasks : Except String (List BacklogIssue)
  createTasks : List Task → Except String (List Task)

/-- Steps 2-12 of `WBSService.create_wbs` (everything after the master-data
step), acting on the result record `r1` accumulated so far. Every failure
aborts the run, keeping the fields assigned so far, leaving `success` false
and recording the message. -/
def wbs_rest (env : WbsEnv) (templateUrl : String)
    (newTasksText : Option String) (projectKey : String) (now : Nat)
    (r1 : WBSResult) : WBSResult :=
  match env.parseServiceType with
  | .error e => { r1 with error_message := some e }
  | .ok serviceType =>
  match env.fetchData with
  | .error e => { r1 with error_message := some e }
  | .ok templateData =>
  match process_template_data serviceType templateData with
  | .error e => { r1 with error_message := some e }
  | .ok templateTasks =>
  match save_data env.gcsUpload env.gcsPathOf now env.firestore templateUrl
      templateUrl (projectKey ++ "_template") templateData "json" with
  | .error e => { r1 with error_message := some e }
  | .ok (metadata, _st) =>
  let r2 := { r1 with metadata_id := metadata.id }
  match (match newTasksText with
         | some s => if s ≠ "" then parse_tasks_from_text s else .ok []
         | none => .ok ([] : List Task)) with
  | .error e => { r2 with error_message := some e }
  | .ok newTasks =>
  let merged := merge_tasks templateTasks newTasks
  let partitioned := check_duplicates env.getTasks merged
  let r3 := { r2 with skipped_tasks := partitioned.2 }
  if partitioned.1.isEmpty then { r3 with success := true }
  else
    match env.createTasks partitioned.1 with
    | .error e => { r3 with error_message := some e }
    | .ok _ =>
      { r3 with registered_tasks := partitioned.1, success := true }

/-- Model of `WBSService.create_wbs`: the twelve-step pipeline. Master-data setup
never raises (its phases catch their own errors); when it reports success
its creation count is copied into the result, otherwise the pipeline merely
continues with the fresh result record. -/
def create_wbs (env : WbsEnv) (templateUrl : String)
    (newTasksText : Option String) (projectKey : String) (now : Nat) :
    WBSResult :=
  let r0 : WBSResult := {}
  let masterResult := setup_master_data env.masterClient
  let r1 :=
    if masterResult.success then
      { r0 with master_data_created := masterResult.total_created }
    else r0
  wbs_rest env templateUrl newTasksText projectKey now r1

/-! ## Theorems -/

/-! ### C2 : duplicate detection -/

lemma dup_loop_eq (ex : List String) :
    ∀ (tasks toRegister duplicates : List Task),
      dup_loop ex toRegister duplicates tasks =
        (toRegister ++ tasks.filter (fun t => !isDuplicateTitle ex t),
         duplicates ++ tasks.filter (fun t => isDuplicateTitle ex t)) := by
  intro tasks
  induction tasks with
  | nil => intro toRegister duplicates; simp [dup_loop]
  | cons task rest ih =>
    intro toRegister duplicates
    by_cases h : isDuplicateTitle ex task
    · simp [dup_loop, h, ih, List.filter_cons]
    · simp [dup_loop, h, ih, List.filter_cons]

/-- C2. Duplicate routing: with a successful fetch, a task lands in the
duplicates list exactly when its lower-cased title is among the lower-cased
existing summaries, and in the to-register list otherwise, both lists
keeping the input order (they are order-preserving filters of the input);
with a failed fetch, the error is swallowed and everything is kept for
registration with no duplicates. -/
theorem check_duplicates_routing (tasks : List Task) :
    (∀ e : String, check_duplicates (.error e) tasks = (tasks, [])) ∧
    (∀ existing : List BacklogIssue,
      check_duplicates (.ok existing) tasks =
        (tasks.filter (fun t =>
           !(existing.map (fun i => str_lower i.summary)).contains
             (str_lower t.title)),
         tasks.filter (fun t =>
           (existing.map (fun i => str_lower i.summary)).contains
             (str_lower t.title)))) := by
  constructor
  · intro e; rfl
  · intro existing
    simp [check_duplicates, dup_loop_eq, isDuplicateTitle]

/-! ### C4, C7, C8 : master-data provisioning -/

lemma ensure_loop_all_existing {α} (nameOf : α → String)
    (create : α → Except String Unit) (ex : List String) :
    ∀ req : List α, (∀ item ∈ req, ex.contains (nameOf item) = true) →
      ensure_loop nameOf create ex req = .ok [] := by
  intro req
  induction req with
  | nil => intro _; rfl
  | cons a t ih =>
    intro h
    have ha : nameOf a ∈ ex := by simpa using h a (List.mem_cons_self a t)
    simpa [ensure_loop, ha] using ih (fun i hi => h i (List.mem_cons_of_mem a hi))

lemma ensure_loop_creates_ok {α} (nameOf : α → String)
    (create : α → Except String Unit) (ex : List String) :
    ∀ req : List α,
      (∀ item ∈ req, ex.contains (nameOf item) = false) →
      (∀ item ∈ req, create item = .ok ()) →
      ensure_loop nameOf create ex req = .ok (req.map nameOf) := by
  intro req
  induction req with
  | nil => intro _ _; rfl
  | cons a t ih =>
    intro hex hcr
    have ha : nameOf a ∉ ex := by simpa using hex a (List.mem_cons_self a t)
    have hc : create a = Except.ok () := hcr a (List.mem_cons_self a t)
    have ht := ih (fun i hi => hex i (List.mem_cons_of_mem a hi))
      (fun i hi => hcr i (List.mem_cons_of_mem a hi))
    simp [ensure_loop, ha, hc, ht, Except.bind]
    rfl

/-- C4. Failure policy of `setup_master_data`: each phase's exception is
caught and recorded as a message prefixed with that phase's name, the other
phases' outcomes are unaffected (each created-list is determined by its own
phase alone), and `success` holds exactly when the error list is empty. -/
theorem setup_master_data_error_policy (client : MasterClient) :
    (setup_master_data client).errors =
      (match ensure_issue_types client with
       | .error e => ["Failed to setup issue types: " ++ e]
       | .ok _ => []) ++
      (match ensure_categories client with
       | .error e => ["Failed to setup categories: " ++ e]
       | .ok _ => []) ++
      (match ensure_custom_fields client with
       | .error e => ["Failed to setup custom fields: " ++ e]
       | .ok _ => []) ∧
    (setup_master_data client).created_issue_types =
      (match ensure_issue_types client with
       | .ok created => created | .error _ => []) ∧
    (setup_master_data client).created_categories =
      (match ensure_categories client with
       | .ok created => created | .error _ => []) ∧
    (setup_master_data client).created_custom_fields =
      (match ensure_custom_fields client with
       | .ok created => created | .error _ => []) ∧
    ((setup_master_data client).success = true ↔
      (setup_master_data client).errors = []) := by
  rcases h1 : ensure_issue_types client with e1 | l1 <;>
    rcases h2 : ensure_categories client with e2 | l2 <;>
      rcases h3 : ensure_custom_fields client with e3 | l3 <;>
        simp [setup_master_data, MasterDataResult.success, h1, h2, h3,
          List.length_eq_zero]

/-- C7. Idempotence of `setup_master_data`: on a project whose tracker
already holds every required issue type, all seven categories and both
custom fields, the run creates nothing, reports `total_created = 0` and
`success = true`, and never consults the creation endpoints (the result does
not depend on their behaviour) — so a second identical call returns the
same result. -/
theorem setup_master_data_idempotent
    (ex1 ex2 ex3 : List String)
    (c1 c1' : String → Except String Unit)
    (c2 c2' : String → Except String Unit)
    (c3 c3' : CustomFieldInput → Except String Unit)
    (h1 : ∀ r ∈ REQUIRED_ISSUE_TYPES, ex1.contains r = true)
    (h2 : ∀ r ∈ REQUIRED_CATEGORIES, ex2.contains r = true)
    (h3 : ∀ f ∈ REQUIRED_CUSTOM_FIELDS, ex3.contains f.name = true) :
    setup_master_data
        ⟨.ok ex1, c1, .ok ex2, c2, .ok ex3, c3⟩ = ({} : MasterDataResult) ∧
    (setup_master_data
        ⟨.ok ex1, c1, .ok ex2, c2, .ok ex3, c3⟩).total_created = 0 ∧
    (setup_master_data
        ⟨.ok ex1, c1, .ok ex2, c2, .ok ex3, c3⟩).success = true ∧
    setup_master_data ⟨.ok ex1, c1, .ok ex2, c2, .ok ex3, c3⟩ =
      setup_master_data ⟨.ok ex1, c1', .ok ex2, c2', .ok ex3, c3'⟩ := by
  have key : ∀ (d1 : String → Except String Unit)
      (d2 : String → Except String Unit)
      (d3 : CustomFieldInput → Except String Unit),
      setup_master_data ⟨.ok ex1, d1, .ok ex2, d2, .ok ex3, d3⟩ =
        ({} : MasterDataResult) := by
    intro d1 d2 d3
    have e1 : ensure_issue_types ⟨.ok ex1, d1, .ok ex2, d2, .ok ex3, d3⟩
        = .ok [] := ensure_loop_all_existing id d1 ex1 REQUIRED_ISSUE_TYPES h1
    have e2 : ensure_categories ⟨.ok ex1, d1, .ok ex2, d2, .ok ex3, d3⟩
        = .ok [] := ensure_loop_all_existing id d2 ex2 REQUIRED_CATEGORIES h2
    have e3 : ensure_custom_fields ⟨.ok ex1, d1, .ok ex2, d2, .ok ex3, d3⟩
        = .ok [] := by
      show ensure_loop (fun f => f.name) d3 ex3 REQUIRED_CUSTOM_FIELDS
          = Except.ok []
      exact ensure_loop_all_existing _ d3 ex3 REQUIRED_CUSTOM_FIELDS h3
    simp [setup_master_data, e1, e2, e3]
  refine ⟨key c1 c2 c3, ?_, ?_, ?_⟩
  · rw [key c1 c2 c3]; rfl
  · rw [key c1 c2 c3]; rfl
  · rw [key c1 c2 c3, key c1' c2' c3']

/-- C7 witness: a concrete fully provisioned project, with creation
endpoints that would fail if ever called. -/
theorem setup_master_data_idempotent_at_full_project :
    setup_master_data
        ⟨.ok ["課題", "リスク"], fun _ => .error "never",
         .ok ["事前準備", "要件定義", "基本設計", "実装", "テスト",
              "リリース", "納品"], fun _ => .error "never",
         .ok ["インプット", "ゴール/アウトプット"], fun _ => .error "never"⟩ =
      ({} : MasterDataResult) := by
  exact (setup_master_data_idempotent
    ["課題", "リスク"]
    ["事前準備", "要件定義", "基本設計", "実装", "テスト", "リリース", "納品"]
    ["インプット", "ゴール/アウトプット"]
    (fun _ => .error "never") (fun _ => .error "never")
    (fun _ => .error "never") (fun _ => .error "never")
    (fun _ => .error "never") (fun _ => .error "never")
    (by decide) (by decide) (by decide)).1

/-- C8 (amended). Provisioning an empty project: with no existing issue
types, categories or custom fields and creation calls that succeed,
`setup_master_data` creates exactly the seven categories (plus the two
issue types and the two custom fields), reporting `total_created = 11`
(not 9: the two created custom fields are counted too) and success. -/
theorem setup_master_data_empty_project
    (c1 : String → Except String Unit) (c2 : String → Except String Unit)
    (c3 : CustomFieldInput → Except String Unit)
    (hc1 : ∀ s, c1 s = .ok ()) (hc2 : ∀ s, c2 s = .ok ())
    (hc3 : ∀ f, c3 f = .ok ()) :
    (setup_master_data ⟨.ok [], c1, .ok [], c2, .ok [], c3⟩).created_categories
        = REQUIRED_CATEGORIES ∧
    (setup_master_data
        ⟨.ok [], c1, .ok [], c2, .ok [], c3⟩).created_categories.length = 7 ∧
    (setup_master_data
        ⟨.ok [], c1, .ok [], c2, .ok [], c3⟩).total_created = 11 ∧
    (setup_master_data ⟨.ok [], c1, .ok [], c2, .ok [], c3⟩).success = true := by
  have e1 : ensure_issue_types ⟨.ok [], c1, .ok [], c2, .ok [], c3⟩
      = .ok REQUIRED_ISSUE_TYPES :=
    ensure_loop_creates_ok id c1 [] REQUIRED_ISSUE_TYPES
      (by intro i _; rfl) (fun i _ => hc1 i)
  have e2 : ensure_categories ⟨.ok [], c1, .ok [], c2, .ok [], c3⟩
      = .ok REQUIRED_CATEGORIES :=
    ensure_loop_creates_ok id c2 [] REQUIRED_CATEGORIES
      (by intro i _; rfl) (fun i _ => hc2 i)
  have e3 : ensure_custom_fields ⟨.ok [], c1, .ok [], c2, .ok [], c3⟩
      = .ok (REQUIRED_CUSTOM_FIELDS.map (fun f => f.name)) := by
    show ensure_loop (fun f => f.name) c3 [] REQUIRED_CUSTOM_FIELDS
        = Except.ok (REQUIRED_CUSTOM_FIELDS.map (fun f => f.name))
    exact ensure_loop_creates_ok _ c3 [] REQUIRED_CUSTOM_FIELDS
      (by intro i _; rfl) (fun i _ => hc3 i)
  have s : setup_master_data ⟨.ok [], c1, .ok [], c2, .ok [], c3⟩ =
      { created_issue_types := REQUIRED_ISSUE_TYPES,
        created_categories := REQUIRED_CATEGORIES,
        created_custom_fields := REQUIRED_CUSTOM_FIELDS.map (fun f => f.name),
        errors := [] } := by
    simp [setup_master_data, e1, e2, e3]
  rw [s]
  refine ⟨rfl, rfl, by decide, rfl⟩

/-- C8 witness: the concrete empty project with always-succeeding creation
endpoints. -/
theorem setup_master_data_empty_project_at_ok_creates :
    (setup_master_data ⟨.ok [], fun _ => .ok (), .ok [], fun _ => .ok (),
        .ok [], fun _ => .ok ()⟩).created_categories = REQUIRED_CATEGORIES ∧
    (setup_master_data ⟨.ok [], fun _ => .ok (), .ok [], fun _ => .ok (),
        .ok [], fun _ => .ok ()⟩).created_categories.length = 7 ∧
    (setup_master_data ⟨.ok [], fun _ => .ok (), .ok [], fun _ => .ok (),
        .ok [], fun _ => .ok ()⟩).total_created = 11 ∧
    (setup_master_data ⟨.ok [], fun _ => .ok (), .ok [], fun _ => .ok (),
        .ok [], fun _ => .ok ()⟩).success = true :=
  setup_master_data_empty_project (fun _ => .ok ()) (fun _ => .ok ())
    (fun _ => .ok ()) (fun _ => rfl) (fun _ => rfl) (fun _ => rfl)

/-- C8 counterexample: on the fully empty project with succeeding creates,
`setup_master_data` creates the 7 categories and succeeds, but
`total_created` is 11 (2 issue types + 7 categories + 2 custom fields),
not the 9 the specification states. -/
theorem setup_master_data_empty_project_total_is_not_9 :
    (setup_master_data ⟨.ok [], fun _ => .ok (), .ok [], fun _ => .ok (),
        .ok [], fun _ => .ok ()⟩).created_categories.length = 7 ∧
    (setup_master_data ⟨.ok [], fun _ => .ok (), .ok [], fun _ => .ok (),
        .ok [], fun _ => .ok ()⟩).success = true ∧
    (setup_master_data ⟨.ok [], fun _ => .ok (), .ok [], fun _ => .ok (),
        .ok [], fun _ => .ok ()⟩).total_created = 11 ∧
    ¬ (setup_master_data ⟨.ok [], fun _ => .ok (), .ok [], fun _ => .ok (),
        .ok [], fun _ => .ok ()⟩).total_created = 9 := by
  refine ⟨?_, ?_, ?_, ?_⟩ <;> decide

/-! ### C3 : versioned storage -/

lemma foldl_laterVersion_cases :
    ∀ (l : List FileMetadata) (acc : Option FileMetadata),
      l.foldl laterVersion acc = acc ∨
        ∃ b ∈ l, l.foldl laterVersion acc = some b := by
  intro l
  induction l with
  | nil => intro acc; left; rfl
  | cons x t ih =>
    intro acc
    rcases ih (laterVersion acc x) with h | ⟨b, hb, h⟩
    · rw [List.foldl_cons, h]
      match acc with
      | none => exact Or.inr ⟨x, List.mem_cons_self x t, rfl⟩
      | some b0 =>
        by_cases hv : b0.version < x.version
        · exact Or.inr ⟨x, List.mem_cons_self x t, by simp [laterVersion, hv]⟩
        · left; simp [laterVersion, hv]
    · exact Or.inr ⟨b, List.mem_cons_of_mem x hb, by rw [List.foldl_cons, h]⟩

lemma get_latest_metadata_append_fresh (url : String) (st : FirestoreState)
    (m : FileMetadata) (hurl : m.file_url = url)
    (hv : ∀ x ∈ st.filter (fun r => r.file_url = url), x.version < m.version) :
    get_latest_metadata url (st ++ [m]) = some m := by
  unfold get_latest_metadata
  rw [List.filter_append, List.foldl_append]
  have hm : (([m] : List FileMetadata).filter (fun r => r.file_url = url)) = [m] := by
    simp [List.filter, hurl]
  rw [hm]
  rcases foldl_laterVersion_cases
      (st.filter (fun r => r.file_url = url)) none with h | ⟨b, hb, h⟩
  · rw [h]; rfl
  · rw [h]
    simp [laterVersion, hv b hb]

lemma save_data_at_none {α} (uriOf : String → α → String)
    (pathOf : String → Nat → String) (now : Nat)
    (parentUrl url fileName format : String) (st : FirestoreState) (d : α)
    (hnone : get_latest_metadata url st = none) :
    save_data (fun p x => .ok (uriOf p x)) pathOf now st parentUrl url
        fileName d format =
      .ok (saved_record pathOf now parentUrl url fileName format st 1,
           st ++ [saved_record pathOf now parentUrl url fileName format st 1]) := by
  simp only [save_data, hnone, save_metadata, saved_record]

lemma save_data_at_some {α} (uriOf : String → α → String)
    (pathOf : String → Nat → String) (now : Nat)
    (parentUrl url fileName format : String) (st : FirestoreState) (d : α)
    (lm : FileMetadata) (hsome : get_latest_metadata url st = some lm) :
    save_data (fun p x => .ok (uriOf p x)) pathOf now st parentUrl url
        fileName d format =
      .ok (saved_record pathOf now parentUrl url fileName format st
             (lm.version + 1),
           st ++ [saved_record pathOf now parentUrl url fileName format st
             (lm.version + 1)]) := by
  simp only [save_data, hsome, save_metadata, saved_record]

lemma save_seq_cons {α} (up : String → α → Except String String)
    (pathOf : String → Nat → String) (now : Nat)
    (parentUrl url fileName format : String) (d : α) (rest : List α)
    (st st1 st2 : FirestoreState) (stored : FileMetadata) (vs : List Nat)
    (hsave : save_data up pathOf now st parentUrl url fileName d format
      = .ok (stored, st1))
    (hrest : save_seq up pathOf now parentUrl url fileName format rest st1
      = .ok (vs, st2)) :
    save_seq up pathOf now parentUrl url fileName format (d :: rest) st
      = .ok (stored.version :: vs, st2) := by
  simp only [save_seq, hsave, hrest]

lemma save_seq_versions_from {α} (uriOf : String → α → String)
    (pathOf : String → Nat → String) (now : Nat)
    (parentUrl url fileName format : String) :
    ∀ (payloads : List α) (st : FirestoreState) (k : Nat),
      (∀ x ∈ st.filter (fun r => r.file_url = url), x.version ≤ k) →
      ((get_latest_metadata url st = none ∧ k = 0) ∨
        (∃ lm, get_latest_metadata url st = some lm ∧ lm.version = k)) →
      ∃ st', save_seq (fun p x => .ok (uriOf p x)) pathOf now parentUrl url
          fileName format payloads st =
        .ok (List.range' (k + 1) payloads.length, st') := by
  intro payloads
  induction payloads with
  | nil => intro st k _ _; exact ⟨st, rfl⟩
  | cons d rest ih =>
    intro st k hbound hlatest
    have hsave : save_data (fun p x => .ok (uriOf p x)) pathOf now st
        parentUrl url fileName d format =
        .ok (saved_record pathOf now parentUrl url fileName format st (k + 1),
             st ++ [saved_record pathOf now parentUrl url fileName format st
               (k + 1)]) := by
      rcases hlatest with ⟨hnone, hk⟩ | ⟨lm, hsome, hlm⟩
      · subst hk
        exact save_data_at_none uriOf pathOf now parentUrl url fileName format
          st d hnone
      · have h := save_data_at_some uriOf pathOf now parentUrl url fileName
          format st d lm hsome
        rw [hlm] at h
        exact h
    have hfresh : get_latest_metadata url
        (st ++ [saved_record pathOf now parentUrl url fileName format st
          (k + 1)]) =
        some (saved_record pathOf now parentUrl url fileName format st
          (k + 1)) := by
      apply get_latest_metadata_append_fresh
      · rfl
      · intro x hx
        have hle := hbound x hx
        show x.version < k + 1
        exact Nat.lt_succ_of_le hle
    have hbound' : ∀ x ∈ (st ++ [saved_record pathOf now parentUrl url
          fileName format st (k + 1)]).filter (fun r => r.file_url = url),
        x.version ≤ k + 1 := by
      intro x hx
      rw [List.filter_append] at hx
      rcases List.mem_append.mp hx with hx | hx
      · exact Nat.le_succ_of_le (hbound x hx)
      · have hxx : x = saved_record pathOf now parentUrl url fileName format
            st (k + 1) := by
          simpa [List.filter, saved_record] using hx
        rw [hxx]
        simp [saved_record]
    obtain ⟨st', hrest⟩ := ih
      (st ++ [saved_record pathOf now parentUrl url fileName format st (k + 1)])
      (k + 1) hbound'
      (Or.inr ⟨saved_record pathOf now parentUrl url fileName format st (k + 1),
        hfresh, rfl⟩)
    refine ⟨st', ?_⟩
    have hcons := save_seq_cons (fun p x => .ok (uriOf p x)) pathOf now
      parentUrl url fileName format d rest st
      (st ++ [saved_record pathOf now parentUrl url fileName format st (k + 1)])
      st' (saved_record pathOf now parentUrl url fileName format st (k + 1))
      (List.range' (k + 1 + 1) rest.length) hsave hrest
    rw [hcons]
    rfl

/-- C3. Version assignment in `save_data`: every call assigns version 1
when the metadata store has no record for the `file_url` and
`latest.version + 1` otherwise; consequently N sequential calls for the
same `file_url`, starting from a store with no record for it, return
exactly the versions `1..N` with no gaps, whatever the payloads are. -/
theorem save_data_versions {α} (uriOf : String → α → String)
    (pathOf : String → Nat → String) (now : Nat)
    (parentUrl url fileName format : String) (payloads : List α)
    (st0 : FirestoreState)
    (h0 : st0.filter (fun m => m.file_url = url) = []) :
    (∀ (st : FirestoreState) (d : α),
      (get_latest_metadata url st = none →
        ∃ m st', save_data (fun p x => .ok (uriOf p x)) pathOf now st
            parentUrl url fileName d format = .ok (m, st') ∧ m.version = 1) ∧
      (∀ lm, get_latest_metadata url st = some lm →
        ∃ m st', save_data (fun p x => .ok (uriOf p x)) pathOf now st
            parentUrl url fileName d format = .ok (m, st') ∧
          m.version = lm.version + 1)) ∧
    (∃ st', save_seq (fun p x => .ok (uriOf p x)) pathOf now parentUrl url
        fileName format payloads st0 =
      .ok (List.range' 1 payloads.length, st')) := by
  constructor
  · intro st d
    constructor
    · intro hnone
      refine ⟨_, _, rfl, ?_⟩
      simp [hnone]
    · intro lm hsome
      refine ⟨_, _, rfl, ?_⟩
      simp [hsome]
  · have hlat : get_latest_metadata url st0 = none := by
      unfold get_latest_metadata
      rw [h0]
      rfl
    have h := save_seq_versions_from uriOf pathOf now parentUrl url fileName
      format payloads st0 0 (by rw [h0]; intro x hx; cases hx)
      (Or.inl ⟨hlat, rfl⟩)
    simpa using h

/-- C3 witness: three saves of arbitrary string payloads against an empty
store yield versions 1, 2, 3. -/
theorem save_data_versions_at_three_saves :
    ∃ st', save_seq (α := String) (fun p _ => .ok p)
        (fun u v => u ++ "/v" ++ toString v) 0 "parent" "u" "f" "json"
        ["a", "b", "c"] [] = .ok ([1, 2, 3], st') := by
  have h := (save_data_versions (α := String) (fun p _ => p)
    (fun u v => u ++ "/v" ++ toString v) 0 "parent" "u" "f" "json"
    ["a", "b", "c"] [] rfl).2
  simpa using h

/-! ### C1, C10 : task merging -/

lemma foldl_merge_sections (g1 g2 : CategoryEnum → List Task) :
    ∀ (cs : List CategoryEnum) (acc : List Task),
      cs.foldl (fun merged c => merged ++ g1 c ++ g2 c) acc =
        acc ++ (cs.map (fun c => g1 c ++ g2 c)).flatten := by
  intro cs
  induction cs with
  | nil => intro acc; simp
  | cons c cs ih =>
    intro acc
    rw [List.foldl_cons, ih]
    simp [List.append_assoc]

lemma merge_tasks_eq_flatten (t n : List Task) :
    merge_tasks t n =
      (CATEGORY_ORDER.map (fun c =>
        group_tasks_by_category t (some c) ++
        group_tasks_by_category (categorize_new_tasks n) (some c))).flatten := by
  unfold merge_tasks
  rw [foldl_merge_sections]
  rfl

lemma mem_group_category (l : List Task) (c : Option CategoryEnum) :
    ∀ x ∈ group_tasks_by_category l c, x.category = c := by
  intro x hx
  have := List.mem_filter.mp hx
  simpa using this.2

lemma pairwise_merge_section (t n : List Task) (c : CategoryEnum) :
    (group_tasks_by_category t (some c) ++
      group_tasks_by_category (categorize_new_tasks n) (some c)).Pairwise
      (fun a b => get_category_order_index a.category ≤
        get_category_order_index b.category) := by
  apply List.pairwise_of_forall_mem_list
  intro a ha b hb
  have hca : a.category = some c := by
    rcases List.mem_append.mp ha with h | h
    · exact mem_group_category _ _ a h
    · exact mem_group_category _ _ a h
  have hcb : b.category = some c := by
    rcases List.mem_append.mp hb with h | h
    · exact mem_group_category _ _ b h
    · exact mem_group_category _ _ b h
  rw [hca, hcb]

lemma pairwise_flatten_sections (t n : List Task) :
    ∀ cs : List CategoryEnum,
      cs.Pairwise (fun a b => get_category_order_index (some a) <
        get_category_order_index (some b)) →
      ((cs.map (fun c =>
          group_tasks_by_category t (some c) ++
          group_tasks_by_category (categorize_new_tasks n) (some c))).flatten).Pairwise
        (fun a b => get_category_order_index a.category ≤
          get_category_order_index b.category) := by
  intro cs
  induction cs with
  | nil => intro _; simp
  | cons c cs ih =>
    intro hp
    rcases List.pairwise_cons.mp hp with ⟨hc, hcs⟩
    rw [List.map_cons, List.flatten_cons, List.pairwise_append]
    refine ⟨pairwise_merge_section t n c, ih hcs, ?_⟩
    intro a ha b hb
    have hca : a.category = some c := by
      rcases List.mem_append.mp ha with h | h
      · exact mem_group_category _ _ a h
      · exact mem_group_category _ _ a h
    rcases List.mem_flatten.mp hb with ⟨l, hl, hbl⟩
    rcases List.mem_map.mp hl with ⟨c', hc', rfl⟩
    have hcb : b.category = some c' := by
      rcases List.mem_append.mp hbl with h | h
      · exact mem_group_category _ _ b h
      · exact mem_group_category _ _ b h
    rw [hca, hcb]
    exact Nat.le_of_lt (hc c' hc')

lemma filter_group (l : List Task) (c c' : CategoryEnum) :
    (group_tasks_by_category l (some c')).filter
        (fun x => x.category = some c) =
      if c = c' then group_tasks_by_category l (some c) else [] := by
  unfold group_tasks_by_category
  by_cases hcc : c = c'
  · subst hcc
    simp only [if_pos rfl]
    rw [List.filter_filter]
    apply List.filter_congr
    intro x _
    simp [Bool.and_self]
  · simp only [if_neg hcc]
    rw [List.filter_filter]
    apply List.filter_eq_nil_iff.mpr
    intro x _
    simp only [Bool.and_eq_true, decide_eq_true_eq]
    rintro ⟨h1, h2⟩
    rw [h1] at h2
    exact hcc (by injection h2)

/-- C1. Ordering contract of `merge_tasks`: the output is sorted by the
fixed category order, and for every category the output restricted to that
category is exactly the template tasks of that category (in their input
order) followed by the categorized new tasks of that category (in their
input order) — so template-origin tasks precede same-category new tasks and
both relative orders are preserved. -/
theorem merge_tasks_ordering (t n : List Task) :
    (merge_tasks t n).Pairwise
      (fun a b => get_category_order_index a.category ≤
        get_category_order_index b.category) ∧
    ∀ c : CategoryEnum,
      (merge_tasks t n).filter (fun x => x.category = some c) =
        t.filter (fun x => x.category = some c) ++
          (categorize_new_tasks n).filter (fun x => x.category = some c) := by
  constructor
  · rw [merge_tasks_eq_flatten]
    exact pairwise_flatten_sections t n CATEGORY_ORDER (by decide)
  · intro c
    rw [merge_tasks_eq_flatten]
    show ((CATEGORY_ORDER.map (fun c =>
        group_tasks_by_category t (some c) ++
        group_tasks_by_category (categorize_new_tasks n) (some c))).flatten).filter
          (fun x => x.category = some c) =
      group_tasks_by_category t (some c) ++
        group_tasks_by_category (categorize_new_tasks n) (some c)
    simp only [CATEGORY_ORDER, List.map_cons, List.map_nil, List.flatten_cons,
      List.flatten_nil, List.filter_append, filter_group, List.append_nil]
    cases c <;> simp

lemma categorize_one_isSome (x : Task) :
    (categorize_one x).category.isSome = true := by
  cases h : x.category <;> simp [categorize_one, h]

lemma group_filter_isSome (l : List Task) (c : CategoryEnum) :
    group_tasks_by_category (l.filter (fun x => x.category.isSome)) (some c) =
      group_tasks_by_category l (some c) := by
  unfold group_tasks_by_category
  rw [List.filter_filter]
  apply List.filter_congr
  intro x _
  cases h : x.category <;> simp [h]

lemma seven_filter_lengths (l : List Task) :
    (l.filter (fun x => x.category = some CategoryEnum.PREPARATION)).length +
    (l.filter (fun x => x.category = some CategoryEnum.REQUIREMENTS)).length +
    (l.filter (fun x => x.category = some CategoryEnum.BASIC_DESIGN)).length +
    (l.filter (fun x => x.category = some CategoryEnum.IMPLEMENTATION)).length +
    (l.filter (fun x => x.category = some CategoryEnum.TESTING)).length +
    (l.filter (fun x => x.category = some CategoryEnum.RELEASE)).length +
    (l.filter (fun x => x.category = some CategoryEnum.DELIVERY)).length =
    (l.filter (fun x => x.category.isSome)).length := by
  induction l with
  | nil => rfl
  | cons x t ih =>
    rcases h : x.category with _ | c
    · simpa [List.filter_cons, h] using ih
    · cases c <;> simp [List.filter_cons, h] <;> omega

lemma merge_tasks_length (t n : List Task) :
    (merge_tasks t n).length =
      (t.filter (fun x => x.category.isSome)).length + n.length := by
  have ht := seven_filter_lengths t
  have hn := seven_filter_lengths (categorize_new_tasks n)
  have hfix : (categorize_new_tasks n).filter (fun x => x.category.isSome) =
      categorize_new_tasks n := by
    apply List.filter_eq_self.mpr
    intro x hx
    rcases List.mem_map.mp hx with ⟨y, _, rfl⟩
    exact categorize_one_isSome y
  have hlen : (categorize_new_tasks n).length = n.length :=
    List.length_map _ _
  rw [hfix, hlen] at hn
  rw [merge_tasks_eq_flatten]
  simp only [CATEGORY_ORDER, List.map_cons, List.map_nil, List.flatten_cons,
    List.flatten_nil, List.append_nil, List.length_append,
    group_tasks_by_category]
  omega

/-- C10. `merge_tasks` silently drops every template task whose category is
`None`: all output tasks carry one of the seven categories, the output is
unchanged when uncategorized template tasks are removed beforehand, its
length is the number of categorized template tasks plus the number of new
tasks (so it can be shorter than the two inputs together), and in
particular a single uncategorized template task produces an empty merge. -/
theorem merge_tasks_drops_uncategorized_template (t n : List Task) :
    (∀ x ∈ merge_tasks t n, x.category.isSome = true) ∧
    merge_tasks t n = merge_tasks (t.filter (fun x => x.category.isSome)) n ∧
    (merge_tasks t n).length =
      (t.filter (fun x => x.category.isSome)).length + n.length ∧
    merge_tasks [{ title := "x", category := none }] [] = [] := by
  refine ⟨?_, ?_, merge_tasks_length t n, rfl⟩
  · intro x hx
    rw [merge_tasks_eq_flatten] at hx
    rcases List.mem_flatten.mp hx with ⟨l, hl, hxl⟩
    rcases List.mem_map.mp hl with ⟨c', _, rfl⟩
    have hc : x.category = some c' := by
      rcases List.mem_append.mp hxl with h | h
      · exact mem_group_category _ _ x h
      · exact mem_group_category _ _ x h
    simp [hc]
  · rw [merge_tasks_eq_flatten, merge_tasks_eq_flatten]
    simp only [group_filter_isSome]

/-! ### C5 : category detection -/

lemma foldl_score_sum {α} (p : α → Bool) (len : α → Nat) :
    ∀ (l : List α) (acc : Nat),
      l.foldl (fun score k => if p k then score + len k else score) acc =
        acc + ((l.filter p).map len).sum := by
  intro l
  induction l with
  | nil => intro acc; simp
  | cons k t ih =>
    intro acc
    by_cases h : p k
    · simp [List.filter_cons, h, ih, Nat.add_assoc]
    · simp [List.filter_cons, h, ih]

lemma foldl_best_spec {α} (s : α → Nat) :
    ∀ (l : List α) (b : α),
      (l.foldl (fun best c => if s best < s c then c else best) b) ∈ b :: l ∧
      (∀ c ∈ b :: l,
        s c ≤ s (l.foldl (fun best c => if s best < s c then c else best) b)) ∧
      (b :: l).find? (fun c =>
          s (l.foldl (fun best c => if s best < s c then c else best) b) ≤ s c)
        = some (l.foldl (fun best c => if s best < s c then c else best) b) := by
  intro l
  induction l with
  | nil =>
    intro b
    refine ⟨List.mem_cons_self b [], ?_, ?_⟩
    · intro c hc
      rcases List.mem_cons.mp hc with rfl | hc
      · exact Nat.le_refl _
      · cases hc
    · simp [List.find?]
  | cons c l ih =>
    intro b
    rw [List.foldl_cons]
    by_cases hbc : s b < s c
    · rw [if_pos hbc]
      obtain ⟨hmem, hmax, hfind⟩ := ih c
      refine ⟨List.mem_cons_of_mem b hmem, ?_, ?_⟩
      · intro x hx
        rcases List.mem_cons.mp hx with rfl | hx
        · exact Nat.le_of_lt (Nat.lt_of_lt_of_le hbc
            (hmax c (List.mem_cons_self c l)))
        · exact hmax x hx
      · have hb : ¬ (s (l.foldl (fun best c => if s best < s c then c else best) c) ≤ s b) := by
          intro hle
          exact Nat.not_le.mpr hbc
            (Nat.le_trans (hmax c (List.mem_cons_self c l)) hle)
        rw [List.find?_cons_of_neg _ (by simpa using hb)]
        exact hfind
    · rw [if_neg hbc]
      obtain ⟨hmem, hmax, hfind⟩ := ih b
      have hr : ∀ x ∈ b :: c :: l,
          s x ≤ s (l.foldl (fun best c => if s best < s c then c else best) b) := by
        intro x hx
        rcases List.mem_cons.mp hx with rfl | hx
        · exact hmax x (List.mem_cons_self x l)
        · rcases List.mem_cons.mp hx with rfl | hx
          · exact Nat.le_trans (Nat.le_of_not_lt hbc)
              (hmax b (List.mem_cons_self b l))
          · exact hmax x (List.mem_cons_of_mem b hx)
      refine ⟨?_, hr, ?_⟩
      · rcases List.mem_cons.mp hmem with h | h
        · rw [h]; exact List.mem_cons_self b (c :: l)
        · exact List.mem_cons_of_mem b (List.mem_cons_of_mem c h)
      · by_cases hpb : s (l.foldl (fun best c => if s best < s c then c else best) b) ≤ s b
        · have hfirst : (b :: l).find? (fun x =>
              s (l.foldl (fun best c => if s best < s c then c else best) b) ≤ s x)
              = some b := List.find?_cons_of_pos _ (by simpa using hpb)
          rw [hfirst] at hfind
          rw [List.find?_cons_of_pos _ (by simpa using hpb)]
          exact hfind
        · have hfind' : l.find? (fun x =>
              s (l.foldl (fun best c => if s best < s c then c else best) b) ≤ s x)
              = some (l.foldl (fun best c => if s best < s c then c else best) b) := by
            rw [List.find?_cons_of_neg _ (by simpa using hpb)] at hfind
            exact hfind
          have hpc : ¬ (s (l.foldl (fun best c => if s best < s c then c else best) b) ≤ s c) := by
            intro hle
            exact hpb (Nat.le_trans hle (Nat.le_of_not_lt hbc))
          rw [List.find?_cons_of_neg _ (by simpa using hpb),
              List.find?_cons_of_neg _ (by simpa using hpc)]
          exact hfind'

lemma mem_categoryMembers (c : CategoryEnum) : c ∈ categoryMembers := by
  cases c <;> simp [categoryMembers]

lemma pickBestCategory_spec (s : CategoryEnum → Nat) :
    pickBestCategory s ∈ categoryMembers ∧
    (∀ c ∈ categoryMembers, s c ≤ s (pickBestCategory s)) ∧
    categoryMembers.find? (fun c => s (pickBestCategory s) ≤ s c)
      = some (pickBestCategory s) := by
  exact foldl_best_spec s
    [CategoryEnum.REQUIREMENTS, CategoryEnum.BASIC_DESIGN,
     CategoryEnum.IMPLEMENTATION, CategoryEnum.TESTING,
     CategoryEnum.RELEASE, CategoryEnum.DELIVERY] CategoryEnum.PREPARATION

/-- C5. `detect_category` is a total function of title and description
(totality and determinism are inherent in the shallow embedding); its score
for a category is the sum of the lengths of that category's keywords (with
multiplicity, as listed) whose lower-cased form occurs in the search text
built from the lower-cased title and description; when some category scores
positively the result is the first category, in declaration order, whose
score reaches the maximum (strictly-greater replacement, ties to the
earlier); when every category scores 0 the result is the default,
Requirements. -/
theorem detect_category_spec (task : Task) :
    (∀ c, match_keywords (search_text task) c =
      (((category_keywords c).filter
         (fun k => strContainsSub (search_text task) (str_lower k))).map
         String.length).sum) ∧
    ((∀ c, match_keywords (search_text task) c = 0) →
      detect_category task = CategoryEnum.REQUIREMENTS) ∧
    (∀ c0, 0 < match_keywords (search_text task) c0 →
      (∀ c, match_keywords (search_text task) c ≤
        match_keywords (search_text task) (detect_category task)) ∧
      categoryMembers.find? (fun c =>
          match_keywords (search_text task) (detect_category task) ≤
            match_keywords (search_text task) c)
        = some (detect_category task)) := by
  obtain ⟨hmem, hmax, hfind⟩ :=
    pickBestCategory_spec (fun c => match_keywords (search_text task) c)
  have hdet : detect_category task =
      (if 0 < match_keywords (search_text task)
          (pickBestCategory (fun c => match_keywords (search_text task) c)) then
        pickBestCategory (fun c => match_keywords (search_text task) c)
      else DEFAULT_CATEGORY) := rfl
  refine ⟨?_, ?_, ?_⟩
  · intro c
    unfold match_keywords
    rw [foldl_score_sum]
    simp
  · intro h
    rw [hdet, h]
    simp [DEFAULT_CATEGORY]
  · intro c0 hc0
    have hpos : 0 < match_keywords (search_text task)
        (pickBestCategory (fun c => match_keywords (search_text task) c)) :=
      Nat.lt_of_lt_of_le hc0 (hmax c0 (mem_categoryMembers c0))
    have hdet2 : detect_category task =
        pickBestCategory (fun c => match_keywords (search_text task) c) := by
      rw [hdet, if_pos hpos]
    constructor
    · intro c
      rw [hdet2]
      exact hmax c (mem_categoryMembers c)
    · rw [hdet2]
      exact hfind

/-- C5 witness: on the task titled 試験 (whose Testing score is positive),
the detector returns the maximal first-reaching category. -/
theorem detect_category_spec_at_concrete_task :
    (∀ c, match_keywords (search_text { title := "試験" }) c ≤
      match_keywords (search_text { title := "試験" })
        (detect_category { title := "試験" })) ∧
    categoryMembers.find? (fun c =>
        match_keywords (search_text { title := "試験" })
            (detect_category { title := "試験" }) ≤
          match_keywords (search_text { title := "試験" }) c)
      = some (detect_category { title := "試験" }) :=
  (detect_category_spec { title := "試験" }).2.2 CategoryEnum.TESTING
    (by decide)

/-! ### C6 : task-text parsing -/

lemma except_bind_ok {α β} (a : α) (f : α → Except String β) :
    (Except.ok a >>= f) = f a := rfl

lemma except_bind_error {α β} (e : String) (f : α → Except String β) :
    ((Except.error e : Except String α) >>= f) = .error e := rfl

lemma length_dropWhile_le {α} (p : α → Bool) :
    ∀ l : List α, (l.dropWhile p).length ≤ l.length := by
  intro l
  induction l with
  | nil => exact Nat.le_refl 0
  | cons x t ih =>
    by_cases h : p x
    · rw [List.dropWhile_cons_of_pos h]
      exact Nat.le_succ_of_le ih
    · rw [List.dropWhile_cons_of_neg h]

lemma collect_desc_cons_keep (l : String) (rest : List String)
    (hb : bullet_content (str_strip l) = none) (hblank : str_strip l ≠ "") :
    collect_desc (l :: rest) = str_strip l :: collect_desc rest := by
  unfold collect_desc
  rw [List.takeWhile_cons_of_pos (by simp [hb]), List.map_cons,
    List.filter_cons_of_pos (by simp [hblank])]

lemma collect_desc_cons_blank (l : String) (rest : List String)
    (hb : bullet_content (str_strip l) = none) (hblank : str_strip l = "") :
    collect_desc (l :: rest) = collect_desc rest := by
  unfold collect_desc
  rw [List.takeWhile_cons_of_pos (by simp [hb]), List.map_cons,
    List.filter_cons_of_neg (by simp [hblank])]

lemma collect_desc_cons_bullet (l : String) (rest : List String) (c : String)
    (hb : bullet_content (str_strip l) = some c) :
    collect_desc (l :: rest) = [] := by
  unfold collect_desc
  rw [List.takeWhile_cons_of_neg (by simp [hb])]
  rfl

lemma loop_some_spec (d : TaskDict) :
    ∀ (lines : List String) (ds : List String) (acc : List Task),
      parse_loop acc (some (d, ds)) lines =
        (create_task_from_dict d (ds ++ collect_desc lines) >>= fun t =>
          parse_loop (acc ++ [t]) none
            (lines.dropWhile (fun x => (bullet_content (str_strip x)).isNone))) := by
  intro lines
  induction lines with
  | nil =>
    intro ds acc
    rcases hc : create_task_from_dict d ds with e | t <;>
      simp [parse_loop, collect_desc, hc, except_bind_ok, except_bind_error]
  | cons l rest ih =>
    intro ds acc
    rcases hb : bullet_content (str_strip l) with _ | c
    · by_cases hblank : str_strip l = ""
      · have hb2 : bullet_content "" = none := rfl
        have hstep : parse_loop acc (some (d, ds)) (l :: rest) =
            parse_loop acc (some (d, ds)) rest := by
          simp [parse_loop, hb, hb2, hblank]
        rw [hstep, ih ds acc, collect_desc_cons_blank l rest hb hblank,
          List.dropWhile_cons_of_pos (by simp [hb])]
      · have hstep : parse_loop acc (some (d, ds)) (l :: rest) =
            parse_loop acc (some (d, ds ++ [str_strip l])) rest := by
          simp [parse_loop, hb, hblank]
        rw [hstep, ih (ds ++ [str_strip l]) acc,
          collect_desc_cons_keep l rest hb hblank,
          List.dropWhile_cons_of_pos (by simp [hb])]
        simp [List.append_assoc]
    · rw [collect_desc_cons_bullet l rest c hb,
        List.dropWhile_cons_of_neg (by simp [hb]), List.append_nil]
      have hstep : parse_loop acc (some (d, ds)) (l :: rest) =
          (create_task_from_dict d ds >>= fun t =>
            parse_loop (acc ++ [t]) (some (parse_task_line c, [])) rest) := by
        simp [parse_loop, hb]
      rcases hc : create_task_from_dict d ds with e | t
      · rw [hstep, hc, except_bind_error, except_bind_error]
      · rw [hstep, hc, except_bind_ok, except_bind_ok]
        have hopen : parse_loop (acc ++ [t]) none (l :: rest) =
            parse_loop (acc ++ [t]) (some (parse_task_line c, [])) rest := by
          simp [parse_loop, hb]
        rw [hopen]

lemma loop_none_spec :
    ∀ (fuel : Nat) (lines : List String), lines.length ≤ fuel →
      ∀ acc : List Task,
        parse_loop acc none lines =
          (tasks_of_blocks (spec_blocks_fuel fuel lines) >>= fun ts =>
            .ok (acc ++ ts)) := by
  intro fuel
  induction fuel with
  | zero =>
    intro lines hlen acc
    have hnil : lines = [] := List.length_eq_zero.mp (Nat.le_zero.mp hlen)
    subst hnil
    simp [parse_loop, spec_blocks_fuel, tasks_of_blocks, except_bind_ok]
  | succ fuel ih =>
    intro lines hlen acc
    match lines with
    | [] => simp [parse_loop, spec_blocks_fuel, tasks_of_blocks, except_bind_ok]
    | l :: rest =>
      have hrest : rest.length ≤ fuel := Nat.le_of_succ_le_succ hlen
      rcases hb : bullet_content (str_strip l) with _ | c
      · have hstep : parse_loop acc none (l :: rest) =
            parse_loop acc none rest := by
          simp [parse_loop, hb]
        have hblocks : spec_blocks_fuel (fuel + 1) (l :: rest) =
            spec_blocks_fuel fuel rest := by
          simp [spec_blocks_fuel, hb]
        rw [hstep, hblocks]
        exact ih rest hrest acc
      · have hstep : parse_loop acc none (l :: rest) =
            parse_loop acc (some (parse_task_line c, [])) rest := by
          simp [parse_loop, hb]
        have hblocks : spec_blocks_fuel (fuel + 1) (l :: rest) =
            (c, collect_desc rest) :: spec_blocks_fuel fuel
              (rest.dropWhile (fun x => (bullet_content (str_strip x)).isNone)) := by
          simp [spec_blocks_fuel, hb]
        rw [hstep, loop_some_spec (parse_task_line c) rest [] acc, hblocks]
        rw [List.nil_append]
        have hdlen : (rest.dropWhile
            (fun x => (bullet_content (str_strip x)).isNone)).length ≤ fuel :=
          Nat.le_trans (length_dropWhile_le _ rest) hrest
        rcases hc : create_task_from_dict (parse_task_line c)
            (collect_desc rest) with e | t
        · rw [except_bind_error]
          have hblk : tasks_of_blocks ((c, collect_desc rest) ::
              spec_blocks_fuel fuel (rest.dropWhile
                (fun x => (bullet_content (str_strip x)).isNone))) =
              .error e := by
            simp [tasks_of_blocks, hc]
          rw [hblk, except_bind_error]
        · rw [except_bind_ok]
          rw [ih (rest.dropWhile (fun x => (bullet_content (str_strip x)).isNone))
            hdlen (acc ++ [t])]
          rcases hts : tasks_of_blocks (spec_blocks_fuel fuel
              (rest.dropWhile (fun x => (bullet_content (str_strip x)).isNone)))
            with e | ts
          · rw [except_bind_error]
            have hblk : tasks_of_blocks ((c, collect_desc rest) ::
                spec_blocks_fuel fuel (rest.dropWhile
                  (fun x => (bullet_content (str_strip x)).isNone))) =
                .error e := by
              simp [tasks_of_blocks, hc, hts]
            rw [hblk, except_bind_error]
          · rw [except_bind_ok]
            have hblk : tasks_of_blocks ((c, collect_desc rest) ::
                spec_blocks_fuel fuel (rest.dropWhile
                  (fun x => (bullet_content (str_strip x)).isNone))) =
                .ok (t :: ts) := by
              simp [tasks_of_blocks, hc, hts]
            rw [hblk, except_bind_ok]
            simp

lemma tasks_of_blocks_all_ok :
    ∀ bs : List (String × List String),
      (∀ b ∈ bs, (parse_task_line b.1).title ≠ "") →
      tasks_of_blocks bs = .ok (bs.map (fun b =>
        ({ title := (parse_task_line b.1).title,
           description := if b.2.isEmpty then none
                          else some (String.intercalate "\n" b.2),
           category := (parse_task_line b.1).category,
           priority := (parse_task_line b.1).priority,
           assignee := (parse_task_line b.1).assignee } : Task))) := by
  intro bs
  induction bs with
  | nil => intro _; rfl
  | cons b rest ih =>
    intro h
    have hb := h b (List.mem_cons_self b rest)
    have hrest := ih (fun x hx => h x (List.mem_cons_of_mem b hx))
    simp [tasks_of_blocks, create_task_from_dict, hb, hrest]

lemma tasks_of_blocks_has_error :
    ∀ bs : List (String × List String),
      (∃ b ∈ bs, (parse_task_line b.1).title = "") →
      ∃ e, tasks_of_blocks bs = .error e := by
  intro bs
  induction bs with
  | nil => rintro ⟨b, hb, _⟩; cases hb
  | cons b rest ih =>
    rintro ⟨b', hb', ht'⟩
    by_cases hbt : (parse_task_line b.1).title = ""
    · exact ⟨"validation error: title must be non-empty",
        by simp [tasks_of_blocks, create_task_from_dict, hbt]⟩
    · rcases List.mem_cons.mp hb' with rfl | hmem
      · exact absurd ht' hbt
      · obtain ⟨e, he⟩ := ih ⟨b', hmem, ht'⟩
        exact ⟨e, by simp [tasks_of_blocks, create_task_from_dict, hbt, he]⟩

lemma filterMap_dropWhile_none {α β} (f : α → Option β) :
    ∀ l : List α,
      (l.dropWhile (fun x => (f x).isNone)).filterMap f = l.filterMap f := by
  intro l
  induction l with
  | nil => rfl
  | cons x t ih =>
    rcases hf : f x with _ | b
    · rw [List.dropWhile_cons_of_pos (by simp [hf]), ih,
        List.filterMap_cons_none hf]
    · rw [List.dropWhile_cons_of_neg (by simp [hf])]

lemma filterMap_bullet_dropWhile :
    ∀ l : List String,
      (l.dropWhile (fun x => (bullet_content (str_strip x)).isNone)).filterMap
          (fun x => bullet_content (str_strip x)) =
        l.filterMap (fun x => bullet_content (str_strip x)) := by
  intro l
  induction l with
  | nil => rfl
  | cons x t ih =>
    rcases hf : bullet_content (str_strip x) with _ | b
    · rw [List.dropWhile_cons_of_pos (by simp [hf]), ih]
      simp [List.filterMap_cons, hf]
    · rw [List.dropWhile_cons_of_neg (by simp [hf])]

lemma spec_blocks_titles :
    ∀ (fuel : Nat) (lines : List String), lines.length ≤ fuel →
      (spec_blocks_fuel fuel lines).map Prod.fst =
        lines.filterMap (fun l => bullet_content (str_strip l)) := by
  intro fuel
  induction fuel with
  | zero =>
    intro lines hlen
    have hnil : lines = [] := List.length_eq_zero.mp (Nat.le_zero.mp hlen)
    subst hnil
    rfl
  | succ fuel ih =>
    intro lines hlen
    match lines with
    | [] => rfl
    | l :: rest =>
      have hrest : rest.length ≤ fuel := Nat.le_of_succ_le_succ hlen
      rcases hb : bullet_content (str_strip l) with _ | c
      · rw [show spec_blocks_fuel (fuel + 1) (l :: rest) =
            spec_blocks_fuel fuel rest from by simp [spec_blocks_fuel, hb],
          ih rest hrest]
        simp [List.filterMap_cons, hb]
      · rw [show spec_blocks_fuel (fuel + 1) (l :: rest) =
            (c, collect_desc rest) :: spec_blocks_fuel fuel
              (rest.dropWhile (fun x => (bullet_content (str_strip x)).isNone))
            from by simp [spec_blocks_fuel, hb],
          List.map_cons,
          ih _ (Nat.le_trans (length_dropWhile_le _ rest) hrest),
          filterMap_bullet_dropWhile]
        simp [List.filterMap_cons, hb]

/-- C6. The converter parses one task per bullet line, in input order
(block titles are exactly the bullet contents in order): when every
bullet's first `|`-segment trims to a non-empty title, the result is the
task list built block-by-block, each task's description being the
newline-join of the stripped non-blank non-bullet lines that follow its
bullet (absent when there are none); and when any bullet's title segment is
empty, the entire parse fails with an error — no partial list is
returned. -/
theorem parse_tasks_from_text_spec (text : String) :
    ((∀ b ∈ spec_blocks (split_char '\n' text),
        (parse_task_line b.1).title ≠ "") →
      parse_tasks_from_text text =
        .ok ((spec_blocks (split_char '\n' text)).map (fun b =>
          ({ title := (parse_task_line b.1).title,
             description := if b.2.isEmpty then none
                            else some (String.intercalate "\n" b.2),
             category := (parse_task_line b.1).category,
             priority := (parse_task_line b.1).priority,
             assignee := (parse_task_line b.1).assignee } : Task)))) ∧
    ((∃ b ∈ spec_blocks (split_char '\n' text),
        (parse_task_line b.1).title = "") →
      ∃ e, parse_tasks_from_text text = .error e) ∧
    (spec_blocks (split_char '\n' text)).map Prod.fst =
      (split_char '\n' text).filterMap (fun l => bullet_content (str_strip l)) := by
  have hloop := loop_none_spec (split_char '\n' text).length
    (split_char '\n' text) (Nat.le_refl _) []
  have hdef : parse_tasks_from_text text =
      parse_loop [] none (split_char '\n' text) := rfl
  have hsb : spec_blocks_fuel (split_char '\n' text).length
      (split_char '\n' text) = spec_blocks (split_char '\n' text) := rfl
  rw [hsb] at hloop
  refine ⟨?_, ?_, ?_⟩
  · intro h
    rw [hdef, hloop, tasks_of_blocks_all_ok _ h, except_bind_ok]
    simp
  · intro h
    obtain ⟨e, he⟩ := tasks_of_blocks_has_error _ h
    refine ⟨e, ?_⟩
    rw [hdef, hloop, he, except_bind_error]
  · exact spec_blocks_titles _ _ (Nat.le_refl _)

/-- C6 witness: a concrete text with two bullets, attribute segments,
interleaved description lines and a leading non-bullet line. -/
theorem parse_tasks_from_text_spec_at_concrete_text :
    parse_tasks_from_text
        "intro\n- A | priority: High\nfirst line\n\nsecond line\n- B\ntail" =
      .ok ((spec_blocks (split_char '\n'
          "intro\n- A | priority: High\nfirst line\n\nsecond line\n- B\ntail")).map
        (fun b =>
          ({ title := (parse_task_line b.1).title,
             description := if b.2.isEmpty then none
                            else some (String.intercalate "\n" b.2),
             category := (parse_task_line b.1).category,
             priority := (parse_task_line b.1).priority,
             assignee := (parse_task_line b.1).assignee } : Task))) :=
  (parse_tasks_from_text_spec
    "intro\n- A | priority: High\nfirst line\n\nsecond line\n- B\ntail").1
    (by decide)

/-! ### C9 : orchestrator and master-data failures -/

lemma wbs_rest_congr (env : WbsEnv) (tU : String) (nT : Option String)
    (pK : String) (now : Nat) (r1 r1' : WBSResult)
    (h1 : r1.success = r1'.success)
    (h2 : r1.registered_tasks = r1'.registered_tasks)
    (h3 : r1.skipped_tasks = r1'.skipped_tasks)
    (h4 : r1.metadata_id = r1'.metadata_id)
    (h5 : r1.error_message = r1'.error_message) :
    (wbs_rest env tU nT pK now r1).success =
      (wbs_rest env tU nT pK now r1').success ∧
    (wbs_rest env tU nT pK now r1).registered_tasks =
      (wbs_rest env tU nT pK now r1').registered_tasks ∧
    (wbs_rest env tU nT pK now r1).skipped_tasks =
      (wbs_rest env tU nT pK now r1').skipped_tasks ∧
    (wbs_rest env tU nT pK now r1).metadata_id =
      (wbs_rest env tU nT pK now r1').metadata_id ∧
    (wbs_rest env tU nT pK now r1).error_message =
      (wbs_rest env tU nT pK now r1').error_message ∧
    (wbs_rest env tU nT pK now r1).master_data_created =
      r1.master_data_created ∧
    (wbs_rest env tU nT pK now r1').master_data_created =
      r1'.master_data_created := by
  unfold wbs_rest
  rcases hsvc : env.parseServiceType with e | svc
  · simp [hsvc, h1, h2, h3, h4, h5]
  rcases htd : env.fetchData with e | td
  · simp [hsvc, htd, h1, h2, h3, h4, h5]
  rcases hpt : process_template_data svc td with e | tts
  · simp [hsvc, htd, hpt, h1, h2, h3, h4, h5]
  rcases hsv : save_data env.gcsUpload env.gcsPathOf now env.firestore tU tU
      (pK ++ "_template") td "json" with e | ⟨md, st2⟩
  · simp [hsvc, htd, hpt, hsv, h1, h2, h3, h4, h5]
  rcases hnw : (match nT with
          | some s => if s = "" then (.ok [] : Except String (List Task))
                      else parse_tasks_from_text s
          | none => .ok ([] : List Task)) with e | nts
  · simp [hsvc, htd, hpt, hsv, hnw, h1, h2, h3, h4, h5]
  by_cases hemp : (check_duplicates env.getTasks (merge_tasks tts nts)).1 = []
  · simp [hsvc, htd, hpt, hsv, hnw, hemp, h1, h2, h3, h4, h5]
  · rcases hct : env.createTasks (check_duplicates env.getTasks
        (merge_tasks tts nts)).1 with e | created
    · simp [hsvc, htd, hpt, hsv, hnw, hct, hemp, h1, h2, h3, h4, h5]
    · simp [hsvc, htd, hpt, hsv, hnw, hct, hemp, h1, h2, h3, h4, h5]

/-- C9 (amended). The master-data step never halts the pipeline: every
later field of the final result (`success`, the registered and skipped
tasks, the metadata id and the error message) is unchanged under an
arbitrary replacement of the master-data client's behaviour, and the only
trace the master step leaves in the result is `master_data_created`, which
is the setup's creation count on success and stays 0 on failure (no error
message is recorded for a master failure). -/
theorem create_wbs_master_isolation (env : WbsEnv) (mc2 : MasterClient)
    (templateUrl : String) (newTasksText : Option String)
    (projectKey : String) (now : Nat) :
    ((create_wbs env templateUrl newTasksText projectKey now).success =
      (create_wbs { env with masterClient := mc2 } templateUrl newTasksText
        projectKey now).success) ∧
    ((create_wbs env templateUrl newTasksText projectKey now).registered_tasks =
      (create_wbs { env with masterClient := mc2 } templateUrl newTasksText
        projectKey now).registered_tasks) ∧
    ((create_wbs env templateUrl newTasksText projectKey now).skipped_tasks =
      (create_wbs { env with masterClient := mc2 } templateUrl newTasksText
        projectKey now).skipped_tasks) ∧
    ((create_wbs env templateUrl newTasksText projectKey now).metadata_id =
      (create_wbs { env with masterClient := mc2 } templateUrl newTasksText
        projectKey now).metadata_id) ∧
    ((create_wbs env templateUrl newTasksText projectKey now).error_message =
      (create_wbs { env with masterClient := mc2 } templateUrl newTasksText
        projectKey now).error_message) ∧
    ((create_wbs env templateUrl newTasksText projectKey
        now).master_data_created =
      if (setup_master_data env.masterClient).success then
        (setup_master_data env.masterClient).total_created
      else 0) := by
  have hA : create_wbs env templateUrl newTasksText projectKey now =
      wbs_rest env templateUrl newTasksText projectKey now
        (if (setup_master_data env.masterClient).success then
          { ({} : WBSResult) with master_data_created :=
              (setup_master_data env.masterClient).total_created }
        else {}) := rfl
  have hB : create_wbs { env with masterClient := mc2 } templateUrl
      newTasksText projectKey now =
      wbs_rest env templateUrl newTasksText projectKey now
        (if (setup_master_data mc2).success then
          { ({} : WBSResult) with master_data_created :=
              (setup_master_data mc2).total_created }
        else {}) := rfl
  have hproj : ∀ (b : Bool) (k : Nat),
      ((if b then { ({} : WBSResult) with master_data_created := k }
        else {}).success = false) ∧
      ((if b then { ({} : WBSResult) with master_data_created := k }
        else {}).registered_tasks = []) ∧
      ((if b then { ({} : WBSResult) with master_data_created := k }
        else {}).skipped_tasks = []) ∧
      ((if b then { ({} : WBSResult) with master_data_created := k }
        else {}).metadata_id = none) ∧
      ((if b then { ({} : WBSResult) with master_data_created := k }
        else {}).error_message = none) ∧
      ((if b then { ({} : WBSResult) with master_data_created := k }
        else {}).master_data_created = if b then k else 0) := by
    intro b k
    cases b <;> simp
  obtain ⟨pa1, pa2, pa3, pa4, pa5, pa6⟩ :=
    hproj (setup_master_data env.masterClient).success
      (setup_master_data env.masterClient).total_created
  obtain ⟨pb1, pb2, pb3, pb4, pb5, _⟩ :=
    hproj (setup_master_data mc2).success (setup_master_data mc2).total_created
  obtain ⟨q1, q2, q3, q4, q5, q6, _⟩ :=
    wbs_rest_congr env templateUrl newTasksText projectKey now
      (if (setup_master_data env.masterClient).success then
        { ({} : WBSResult) with master_data_created :=
            (setup_master_data env.masterClient).total_created }
      else {})
      (if (setup_master_data mc2).success then
        { ({} : WBSResult) with master_data_created :=
            (setup_master_data mc2).total_created }
      else {})
      (pa1.trans pb1.symm) (pa2.trans pb2.symm) (pa3.trans pb3.symm)
      (pa4.trans pb4.symm) (pa5.trans pb5.symm)
  rw [hA, hB]
  exact ⟨q1, q2, q3, q4, q5, q6.trans pa6⟩

/-- C9 counterexample: with every later step fixed, a run whose master-data
setup fails (issue-type fetch throws) produces a final `WBSResult`
identical to a run whose master-data setup succeeds — so the final result
carries no master-failure information at all: `master_data_created` is 0
and `error_message` is `none` in both. -/
theorem create_wbs_master_failure_info_lost :
    create_wbs
        { masterClient :=
            { getIssueTypes := .error "issue type backend down",
              createIssueType := fun _ => .ok (),
              getCategories := .ok ["事前準備", "要件定義", "基本設計", "実装",
                "テスト", "リリース", "納品"],
              createCategory := fun _ => .ok (),
              getCustomFields := .ok ["インプット", "ゴール/アウトプット"],
              createCustomField := fun _ => .ok () },
          parseServiceType := .ok .BACKLOG,
          fetchData := .ok .other,
          firestore := [],
          gcsUpload := fun p _ => .ok p,
          gcsPathOf := fun u v => u ++ toString v,
          getTasks := .ok [],
          createTasks := fun ts => .ok ts } "u" none "P" 0 =
      create_wbs
        { masterClient :=
            { getIssueTypes := .ok ["課題", "リスク"],
              createIssueType := fun _ => .ok (),
              getCategories := .ok ["事前準備", "要件定義", "基本設計", "実装",
                "テスト", "リリース", "納品"],
              createCategory := fun _ => .ok (),
              getCustomFields := .ok ["インプット", "ゴール/アウトプット"],
              createCustomField := fun _ => .ok () },
          parseServiceType := .ok .BACKLOG,
          fetchData := .ok .other,
          firestore := [],
          gcsUpload := fun p _ => .ok p,
          gcsPathOf := fun u v => u ++ toString v,
          getTasks := .ok [],
          createTasks := fun ts => .ok ts } "u" none "P" 0 ∧
    (setup_master_data
        { getIssueTypes := .error "issue type backend down",
          createIssueType := fun _ => .ok (),
          getCategories := .ok ["事前準備", "要件定義", "基本設計", "実装",
            "テスト", "リリース", "納品"],
          createCategory := fun _ => .ok (),
          getCustomFields := .ok ["インプット", "ゴール/アウトプット"],
          createCustomField := fun _ => .ok () }).success = false ∧
    (setup_master_data
        { getIssueTypes := .ok ["課題", "リスク"],
          createIssueType := fun _ => .ok (),
          getCategories := .ok ["事前準備", "要件定義", "基本設計", "実装",
            "テスト", "リリース", "納品"],
          createCategory := fun _ => .ok (),
          getCustomFields := .ok ["インプット", "ゴール/アウトプット"],
          createCustomField := fun _ => .ok () }).success = true := by
  refine ⟨?_, ?_, ?_⟩ <;> decide

end Wbs
